import Mathlib

/-!
Shallow embedding of the analysis pipeline of `src/app.py` (KI Kosten-Scanner)
together with theorems checking the natural-language specification against it.
Python machine floats are modelled as exact rationals, pandas timestamps as
integer day numbers, and dataframes as lists of rows.
-/

namespace KostenScanner

/-- Alarm types emitted by the alarms loop of `src/app.py`
(`NEU` = NEW, `WEG` = DROPPED, `AENDERUNG` = CHANGED). -/
inductive AlarmType
  | NEU
  | WEG
  | AENDERUNG
deriving DecidableEq, Repr

/-- One iteration of the alarms loop of `src/app.py` (lines 290-303) for a
single vendor and one consecutive year pair: given the configured threshold
percent `TH` and minimum base `MIN`, and the dense pivot values `base`
(year y1) and `new` (year y2), this returns the appended alarm record
`(type, delta, percent)` or `none` when nothing is appended. -/
def alarmStep (TH MIN base new : ℚ) : Option (AlarmType × ℚ × Option ℚ) :=
  if base = 0 ∧ MIN ≤ new then
    some (.NEU, new, none)
  else if MIN ≤ base ∧ new = 0 then
    some (.WEG, -base, some (-100))
  else if MIN ≤ base ∧ 0 < new then
    let pct := (new - base) / base * 100
    if TH ≤ |pct| then some (.AENDERUNG, new - base, some pct) else none
  else
    none

/-- C1: for nonnegative base and new amounts, positive threshold `TH` and
positive minimum base `MIN`, the alarm detector's outcome is exactly one of
NEW (base = 0 and new ≥ MIN, delta = new, percent null), DROPPED
(base ≥ MIN and new = 0, delta = -base, percent = -100), CHANGED
(base ≥ MIN and new > 0 and |(new-base)/base·100| ≥ TH, delta = new-base),
or no alarm; the three alarm conditions are pairwise disjoint and every
boundary comparison is inclusive. -/
theorem alarmStep_partition (TH MIN base new : ℚ)
    (hbase : 0 ≤ base) (hnew : 0 ≤ new) (hTH : 0 < TH) (hMIN : 0 < MIN) :
    (alarmStep TH MIN base new = some (.NEU, new, none) ↔ base = 0 ∧ MIN ≤ new)
    ∧ (alarmStep TH MIN base new = some (.WEG, -base, some (-100)) ↔
        MIN ≤ base ∧ new = 0)
    ∧ (alarmStep TH MIN base new =
          some (.AENDERUNG, new - base, some ((new - base) / base * 100)) ↔
        MIN ≤ base ∧ 0 < new ∧ TH ≤ |(new - base) / base * 100|)
    ∧ (alarmStep TH MIN base new = none ↔
        ¬(base = 0 ∧ MIN ≤ new) ∧ ¬(MIN ≤ base ∧ new = 0)
        ∧ ¬(MIN ≤ base ∧ 0 < new ∧ TH ≤ |(new - base) / base * 100|))
    ∧ ¬((base = 0 ∧ MIN ≤ new) ∧ (MIN ≤ base ∧ new = 0))
    ∧ ¬((base = 0 ∧ MIN ≤ new) ∧ (MIN ≤ base ∧ 0 < new))
    ∧ ¬((MIN ≤ base ∧ new = 0) ∧ (MIN ≤ base ∧ 0 < new)) := by
  unfold alarmStep
  split_ifs with h1 h2 h3 h4 <;> simp_all

/-- Witness for `alarmStep_partition`: the NEW scenario base = 0, new = 150,
TH = 10, MIN = 100 yields a NEW alarm with delta 150 and null percent. -/
theorem alarmStep_partition_witness :
    alarmStep 10 100 0 150 = some (.NEU, 150, none) :=
  ((alarmStep_partition 10 100 0 150 (by norm_num) (by norm_num) (by norm_num)
      (by norm_num)).1).mpr ⟨rfl, by norm_num⟩

/-- The whitespace characters matched by Python's `\s` / `str.strip` on the
ASCII inputs in scope. -/
def isSpace (c : Char) : Bool :=
  c = ' ' || c = '\t' || c = '\n' || c = '\r' || c = '\x0b' || c = '\x0c'

/-- Python `str.strip`: drop leading and trailing whitespace. -/
def stripChars (l : List Char) : List Char :=
  ((l.dropWhile isSpace).reverse.dropWhile isSpace).reverse

/-- Python `str.lower` restricted to the alphabet relevant to the pipeline:
ASCII letters and the accented letters retained by `norm_vendor`'s filter. -/
def lowerChar (c : Char) : Char :=
  if 'A' ≤ c ∧ c ≤ 'Z' then Char.ofNat (c.toNat + 32)
  else if c = 'Ä' then 'ä'
  else if c = 'Ö' then 'ö'
  else if c = 'Ü' then 'ü'
  else if c = 'À' then 'à'
  else if c = 'È' then 'è'
  else if c = 'É' then 'é'
  else if c = 'Ì' then 'ì'
  else if c = 'Ò' then 'ò'
  else if c = 'Ù' then 'ù'
  else c

/-- `re.sub(r"\s+", " ", v)`: each maximal run of whitespace becomes a single
space; the boolean argument records whether the previous character was
whitespace. -/
def collapseWS : Bool → List Char → List Char
  | _, [] => []
  | prevSpace, c :: rest =>
    if isSpace c then
      if prevSpace then collapseWS true rest
      else ' ' :: collapseWS true rest
    else c :: collapseWS false rest

/-- `v.replace("&", " und ")`. -/
def expandAmp : List Char → List Char
  | [] => []
  | c :: rest =>
    if c = '&' then ' ' :: 'u' :: 'n' :: 'd' :: ' ' :: expandAmp rest
    else c :: expandAmp rest

/-- The character class `[a-z0-9äöüßàèéìòù \-\.]` kept by `norm_vendor`'s
final filter (`re.sub` with the negated class deletes everything else). -/
def isAllowed (c : Char) : Bool :=
  ('a' ≤ c && c ≤ 'z') || ('0' ≤ c && c ≤ '9')
  || c = 'ä' || c = 'ö' || c = 'ü' || c = 'ß'
  || c = 'à' || c = 'è' || c = 'é' || c = 'ì' || c = 'ò' || c = 'ù'
  || c = ' ' || c = '-' || c = '.'

/-- `norm_vendor` of `src/app.py` (lines 47-54) on string input: strip,
lowercase, collapse whitespace, expand `&` to `" und "`, drop characters
outside the allowed class, strip again. (Non-string input returns `""` in
the source before any of these steps and is not modelled.) -/
def norm_vendor (v : String) : String :=
  ⟨stripChars ((expandAmp (collapseWS false
      ((stripChars v.data).map lowerChar))).filter isAllowed)⟩

/-- Two consecutive space characters occur somewhere in the list. -/
def hasDoubleSpace : List Char → Bool
  | [] => false
  | [_] => false
  | a :: b :: rest => (a = ' ' && b = ' ') || hasDoubleSpace (b :: rest)

theorem mem_of_mem_stripChars {c : Char} {l : List Char}
    (h : c ∈ stripChars l) : c ∈ l := by
  unfold stripChars at h
  rw [List.mem_reverse] at h
  have h1 := (List.dropWhile_suffix isSpace).subset h
  rw [List.mem_reverse] at h1
  exact (List.dropWhile_suffix isSpace).subset h1

theorem norm_vendor_allowed (v : String) :
    (norm_vendor v).data.all isAllowed = true := by
  rw [List.all_eq_true]
  intro c hc
  have h2 : c ∈ (expandAmp (collapseWS false
      ((stripChars v.data).map lowerChar))).filter isAllowed :=
    mem_of_mem_stripChars hc
  exact (List.mem_filter.mp h2).2

/-- C2 counterexample: `norm_vendor "Acme & Co."` evaluates to
`"acme  und  co."` — two spaces around `und`, because whitespace is collapsed
before `&` is expanded to `" und "` — not to `"acme und co."`, and the output
contains two consecutive space characters. -/
theorem norm_vendor_acme_counterexample :
    norm_vendor "Acme & Co." = "acme  und  co."
    ∧ ¬(norm_vendor "Acme & Co." = "acme und co.")
    ∧ hasDoubleSpace (norm_vendor "Acme & Co.").data = true :=
  ⟨by decide, by decide, by decide⟩

/-- C2 amended: the vendor normalizer lowercases, collapses whitespace, and
only then expands `&` to `" und "`, so `"Acme & Co."` normalizes to
`"acme  und  co."` (with doubled spaces); every output character lies in the
restricted class `[a-z0-9äöüßàèéìòù \-\.]` — in particular the output is
lowercase — but consecutive spaces can occur in it. -/
theorem norm_vendor_amended :
    norm_vendor "Acme & Co." = "acme  und  co."
    ∧ ∀ v : String, (norm_vendor v).data.all isAllowed = true :=
  ⟨by decide, norm_vendor_allowed⟩

/-- Does the first list occur as a prefix of the second?
(Python `str.startswith`.) -/
def startsWithL : List Char → List Char → Bool
  | [], _ => true
  | _ :: _, [] => false
  | a :: as, b :: bs => a = b && startsWithL as bs

/-- Does `needle` occur as a contiguous substring of the second list?
(Python's `needle in s`.) -/
def containsSub (needle : List Char) : List Char → Bool
  | [] => needle.isEmpty
  | c :: rest => startsWithL needle (c :: rest) || containsSub needle rest

/-- Python's `needle in hay` on strings. -/
def strIn (needle hay : String) : Bool := containsSub needle.data hay.data

/-- Python `str.lower` (via `lowerChar`). -/
def lowerStr (s : String) : String := ⟨s.data.map lowerChar⟩

/-- `categorize` of `src/app.py` (lines 57-79): an ordered chain of keyword
rules over the lowercased vendor/account/text strings; the first match wins
and the default is "Sonstiges". (`vendor_norm or ""` etc. are identities on
string inputs.) -/
def categorize (vendor_norm account text : String) : String :=
  let n := lowerStr vendor_norm
  let a := lowerStr account
  let t := lowerStr text
  if strIn "arval" n || strIn "lease" n || strIn "leasing" t then
    "Leasing/Fahrzeug"
  else if strIn "meta" n || strIn "facebook" n || strIn "ads" t then
    "Marketing/Werbung"
  else if strIn "hera" n || strIn "alperia" n || strIn "energie" t
      || strIn "strom" t || strIn "gas" t then
    "Energie"
  else if ["aruba", "register", "apple", "microsoft", "google", "adobe"].any
      (fun x => strIn x n) then
    "Software/IT"
  else if strIn "gemeinde" n || strIn "handelskammer" n
      || strIn "camera di commercio" t then
    "Gebühren/Pflicht"
  else if strIn "rst" n || strIn "steuer" t || strIn "commercialista" t then
    "Beratung/Dienstleistung"
  else if startsWithL "71.".data (lowerStr account).data
      || strIn "software" a then
    "Software/IT"
  else
    "Sonstiges"

/-- Specification view of the categorizer: the same rules as an explicit
ordered list of (predicate, category) pairs over the lowercased
(vendor, account, text) triple. -/
def catRules : List ((String × String × String → Bool) × String) :=
  [ (fun x => strIn "arval" x.1 || strIn "lease" x.1 || strIn "leasing" x.2.2,
      "Leasing/Fahrzeug"),
    (fun x => strIn "meta" x.1 || strIn "facebook" x.1 || strIn "ads" x.2.2,
      "Marketing/Werbung"),
    (fun x => strIn "hera" x.1 || strIn "alperia" x.1 || strIn "energie" x.2.2
      || strIn "strom" x.2.2 || strIn "gas" x.2.2,
      "Energie"),
    (fun x => ["aruba", "register", "apple", "microsoft", "google", "adobe"].any
      (fun k => strIn k x.1),
      "Software/IT"),
    (fun x => strIn "gemeinde" x.1 || strIn "handelskammer" x.1
      || strIn "camera di commercio" x.2.2,
      "Gebühren/Pflicht"),
    (fun x => strIn "rst" x.1 || strIn "steuer" x.2.2
      || strIn "commercialista" x.2.2,
      "Beratung/Dienstleistung"),
    (fun x => startsWithL "71.".data x.2.1.data || strIn "software" x.2.1,
      "Software/IT") ]

/-- First-match-wins evaluation of an ordered rule list with a default. -/
def firstMatch (rules : List ((String × String × String → Bool) × String))
    (deflt : String) (x : String × String × String) : String :=
  match rules with
  | [] => deflt
  | r :: rest => if r.1 x then r.2 else firstMatch rest deflt x

/-- C7: the categorizer evaluates its fixed ordered list of lowercased
substring predicates first-match-wins with default "Sonstiges", and a
vendor string containing a leasing keyword ("arval" or "lease", hence also
"leasing") is categorized "Leasing/Fahrzeug" whatever the account and text
fields contain — in particular even when the account starts with the
software prefix "71.". -/
theorem categorize_firstMatch (v a t : String) :
    categorize v a t
      = firstMatch catRules "Sonstiges" (lowerStr v, lowerStr a, lowerStr t)
    ∧ ((strIn "arval" (lowerStr v) || strIn "lease" (lowerStr v)) = true →
        categorize v a t = "Leasing/Fahrzeug") := by
  constructor
  · rfl
  · intro h
    rcases Bool.or_eq_true_iff.mp h with h' | h' <;>
      simp [categorize, h']

/-- Witness for `categorize_firstMatch`: the vendor "arval leasing gmbh"
with account "71.003" (software prefix) and empty text is categorized
"Leasing/Fahrzeug". -/
theorem categorize_firstMatch_witness :
    categorize "arval leasing gmbh" "71.003" "" = "Leasing/Fahrzeug" :=
  (categorize_firstMatch "arval leasing gmbh" "71.003" "").2 (by decide)

/-- Insert into an ascending-sorted list. -/
def insertAsc {α : Type} [LinearOrder α] (x : α) : List α → List α
  | [] => [x]
  | y :: rest => if x ≤ y then x :: y :: rest else y :: insertAsc x rest

/-- Ascending sort (pandas `Series.sort_values`). -/
def sortAsc {α : Type} [LinearOrder α] : List α → List α
  | [] => []
  | x :: rest => insertAsc x (sortAsc rest)

/-- Consecutive differences of a list (pandas `Series.diff().dropna()`),
in whole days since the dates are modelled as integer day numbers. -/
def gaps : List ℤ → List ℤ
  | a :: b :: rest => (b - a) :: gaps (b :: rest)
  | _ => []

/-- Pandas `Series.median` on exact rationals: middle element of the sorted
values for odd length, mean of the two middle elements for even length. -/
def median (l : List ℚ) : ℚ :=
  let s := sortAsc l
  let n := s.length
  if n % 2 = 1 then s.getD (n / 2) 0
  else (s.getD (n / 2 - 1) 0 + s.getD (n / 2) 0) / 2

/-- The inclusive band classification ending `guess_frequency`
(`src/app.py` lines 90-98). -/
def classifyBand (med : ℚ) : String :=
  if 25 ≤ med ∧ med ≤ 35 then "monatlich"
  else if 55 ≤ med ∧ med ≤ 75 then "zweimonatlich"
  else if 80 ≤ med ∧ med ≤ 110 then "quartal"
  else if 330 ≤ med ∧ med ≤ 400 then "jährlich"
  else "unklar"

/-- `guess_frequency` of `src/app.py` (lines 82-98): drop nulls, sort, fewer
than 3 dates gives "unklar", otherwise classify the median consecutive gap
(in days) by the inclusive bands. -/
def guess_frequency (dates : List (Option ℤ)) : String :=
  if (sortAsc (dates.filterMap id)).length < 3 then "unklar"
  else if (gaps (sortAsc (dates.filterMap id))).isEmpty then "unklar"
  else classifyBand
    (median ((gaps (sortAsc (dates.filterMap id))).map (fun z => (z : ℚ))))

/-- The median consecutive day-gap a date list is classified by. -/
def medGap (dates : List (Option ℤ)) : ℚ :=
  median ((gaps (sortAsc (dates.filterMap id))).map (fun z => (z : ℚ)))

theorem insertAsc_length {α : Type} [LinearOrder α] (x : α) :
    ∀ l : List α, (insertAsc x l).length = l.length + 1
  | [] => rfl
  | y :: rest => by
    unfold insertAsc
    split_ifs <;> simp [insertAsc_length x rest]

theorem sortAsc_length {α : Type} [LinearOrder α] :
    ∀ l : List α, (sortAsc l).length = l.length
  | [] => rfl
  | x :: rest => by
    unfold sortAsc
    rw [insertAsc_length, sortAsc_length rest, List.length_cons]

theorem gaps_length : ∀ l : List ℤ, (gaps l).length = l.length - 1
  | [] => rfl
  | [_] => rfl
  | a :: b :: rest => by
    have h := gaps_length (b :: rest)
    simp only [gaps, List.length_cons] at h ⊢
    omega

theorem classifyBand_iffs (med : ℚ) :
    (classifyBand med = "monatlich" ↔ 25 ≤ med ∧ med ≤ 35)
    ∧ (classifyBand med = "zweimonatlich" ↔ 55 ≤ med ∧ med ≤ 75)
    ∧ (classifyBand med = "quartal" ↔ 80 ≤ med ∧ med ≤ 110)
    ∧ (classifyBand med = "jährlich" ↔ 330 ≤ med ∧ med ≤ 400)
    ∧ (classifyBand med = "unklar" ↔
        ¬(25 ≤ med ∧ med ≤ 35) ∧ ¬(55 ≤ med ∧ med ≤ 75)
        ∧ ¬(80 ≤ med ∧ med ≤ 110) ∧ ¬(330 ≤ med ∧ med ≤ 400)) := by
  unfold classifyBand
  split_ifs with h1 h2 h3 h4 <;>
    refine ⟨?_, ?_, ?_, ?_, ?_⟩ <;>
    simp_all <;>
    intros <;>
    linarith

/-- C3: fewer than 3 non-null dates gives the estimate "unklar"; with at
least 3 the estimate is the inclusive-band classification of the median
consecutive day-gap of the sorted dates — "monatlich" exactly on [25,35]
(so 25 and 35 qualify, 24 and 36 do not), "zweimonatlich" on [55,75],
"quartal" on [80,110], "jährlich" on [330,400], and "unklar" outside all
bands. -/
theorem guess_frequency_bands (dates : List (Option ℤ)) :
    ((dates.filterMap id).length < 3 → guess_frequency dates = "unklar")
    ∧ (3 ≤ (dates.filterMap id).length →
        ((guess_frequency dates = "monatlich" ↔
            25 ≤ medGap dates ∧ medGap dates ≤ 35)
        ∧ (guess_frequency dates = "zweimonatlich" ↔
            55 ≤ medGap dates ∧ medGap dates ≤ 75)
        ∧ (guess_frequency dates = "quartal" ↔
            80 ≤ medGap dates ∧ medGap dates ≤ 110)
        ∧ (guess_frequency dates = "jährlich" ↔
            330 ≤ medGap dates ∧ medGap dates ≤ 400)
        ∧ (guess_frequency dates = "unklar" ↔
            ¬(25 ≤ medGap dates ∧ medGap dates ≤ 35)
            ∧ ¬(55 ≤ medGap dates ∧ medGap dates ≤ 75)
            ∧ ¬(80 ≤ medGap dates ∧ medGap dates ≤ 110)
            ∧ ¬(330 ≤ medGap dates ∧ medGap dates ≤ 400)))) := by
  have hlen : (sortAsc (dates.filterMap id)).length
      = (dates.filterMap id).length := sortAsc_length _
  constructor
  · intro h
    unfold guess_frequency
    rw [if_pos (by omega)]
  · intro h
    have hfreq : guess_frequency dates = classifyBand (medGap dates) := by
      unfold guess_frequency
      rw [if_neg (by omega)]
      have hg : (gaps (sortAsc (dates.filterMap id))).isEmpty = false := by
        cases hG : gaps (sortAsc (dates.filterMap id)) with
        | nil =>
          exfalso
          have hgl := gaps_length (sortAsc (dates.filterMap id))
          rw [hG] at hgl
          simp only [List.length_nil] at hgl
          omega
        | cons x xs => rfl
      rw [hg]
      rfl
    rw [hfreq]
    exact classifyBand_iffs (medGap dates)

/-- Witness for `guess_frequency_bands`: three dates 25 days apart give the
median gap 25 and hence "monatlich"; three dates 24 days apart give median
24 and hence "unklar". -/
theorem guess_frequency_bands_witness :
    guess_frequency [some 0, some 25, some 50] = "monatlich"
    ∧ guess_frequency [some 0, some 24, some 48] = "unklar" := by
  have h25 : medGap [some 0, some 25, some 50] = 25 := by
    norm_num [medGap, median, sortAsc, insertAsc, gaps, List.filterMap]
  have h24 : medGap [some 0, some 24, some 48] = 24 := by
    norm_num [medGap, median, sortAsc, insertAsc, gaps, List.filterMap]
  constructor
  · exact (((guess_frequency_bands [some 0, some 25, some 50]).2
      (by decide)).1).mpr (by rw [h25]; norm_num)
  · exact (((guess_frequency_bands [some 0, some 24, some 48]).2
      (by decide)).2.2.2.2).mpr
      (by rw [h24]; norm_num)

/-- `recurring_flag` of `src/app.py` (lines 272-275): years_nonzero at least
2, or the frequency guess is in the fixed four-element list. -/
def recurring_flag (years_nonzero : ℕ) (freq_guess : String) : Bool :=
  decide (2 ≤ years_nonzero)
  || ["monatlich", "quartal", "zweimonatlich", "jährlich"].contains freq_guess

theorem guess_frequency_mem (dates : List (Option ℤ)) :
    guess_frequency dates
      ∈ (["monatlich", "zweimonatlich", "quartal", "jährlich", "unklar"] :
          List String) := by
  unfold guess_frequency classifyBand
  split_ifs <;> simp

/-- C8: a vendor is flagged recurring exactly when years_nonzero ≥ 2 or the
frequency guess (itself a value of `guess_frequency`) differs from "unklar";
the flag is a function of these two values only. -/
theorem recurring_flag_iff (yn : ℕ) (dates : List (Option ℤ)) :
    recurring_flag yn (guess_frequency dates) = true ↔
      2 ≤ yn ∨ guess_frequency dates ≠ "unklar" := by
  have hmem := guess_frequency_mem dates
  simp only [List.mem_cons, List.not_mem_nil, or_false] at hmem
  unfold recurring_flag
  rcases hmem with h | h | h | h | h <;> rw [h] <;> simp <;> decide

/-- Witness for `recurring_flag_iff`: a vendor present in a single year but
with three dates 30 days apart is flagged recurring. -/
theorem recurring_flag_iff_witness :
    recurring_flag 1 (guess_frequency [some 0, some 30, some 60]) = true := by
  have hfit : guess_frequency [some 0, some 30, some 60] = "monatlich" := by
    norm_num [guess_frequency, classifyBand, median, sortAsc, insertAsc,
      gaps, List.filterMap]
  exact (recurring_flag_iff 1 [some 0, some 30, some 60]).mpr
    (Or.inr (by rw [hfit]; decide))

/-- Derived net amount of one parsed row (`src/app.py` line 215):
`pd.to_numeric(..., errors="coerce").fillna(0.0)` — an unparseable amount
cell degrades to 0.0 instead of aborting. -/
def amountNet (parsedAmount : Option ℚ) : ℚ := parsedAmount.getD 0

/-- The admission filter (`src/app.py` line 229): derived year within the
configured inclusive range and strictly positive net amount; a null year
(unparseable date) fails pandas `between`, so the row is excluded. -/
def admitRow (year_min year_max : ℤ) (year : Option ℤ)
    (amount_net : ℚ) : Bool :=
  (match year with
   | none => false
   | some y => decide (year_min ≤ y ∧ y ≤ year_max))
  && decide (0 < amount_net)

/-- C5: a parsed row is admitted to analysis exactly when its date parsed to
a year inside the inclusive [year_min, year_max] range and its amount cell
parsed to a strictly positive number; a null year (unparseable date) or an
unparseable amount (degraded to 0.0) excludes the row, and both degradations
are total — no abort. -/
theorem admitRow_iff (year_min year_max : ℤ) (year : Option ℤ)
    (parsedAmount : Option ℚ) :
    admitRow year_min year_max year (amountNet parsedAmount) = true ↔
      (∃ y, year = some y ∧ year_min ≤ y ∧ y ≤ year_max)
      ∧ (∃ q, parsedAmount = some q ∧ 0 < q) := by
  cases year <;> cases parsedAmount <;>
    simp [admitRow, amountNet]

/-- A filtered transaction row as consumed by the aggregation steps. -/
structure Row where
  vendor_norm : String
  year : ℤ
  amount_net : ℚ
deriving DecidableEq

/-- Sum of `amount_net` over one (vendor, year) group (the `sum_net`
aggregate of `vendor_year`, `src/app.py` lines 242-245). -/
def sumNet (rows : List Row) (v : String) (y : ℤ) : ℚ :=
  ((rows.filter (fun r => decide (r.vendor_norm = v ∧ r.year = y))).map
    (fun r => r.amount_net)).sum

/-- The distinct (vendor, year) keys of the dataset (pandas `groupby`
group keys). -/
def groupKeys (rows : List Row) : List (String × ℤ) :=
  (rows.map (fun r => (r.vendor_norm, r.year))).dedup

/-- `vendor_year` of `src/app.py` (lines 242-245): one aggregate entry per
(vendor_norm, year) group carrying its `sum_net`. (The `count` aggregate is
not consumed by any claim checked here.) -/
def vendor_year (rows : List Row) : List ((String × ℤ) × ℚ) :=
  (groupKeys rows).map (fun k => (k, sumNet rows k.1 k.2))

/-- The dense pivot lookup (`pivot(...).fillna(0.0)`, line 247): the
group's `sum_net` when the (vendor, year) group exists, 0.0 for an absent
cell. -/
def pivotVal (rows : List Row) (v : String) (y : ℤ) : ℚ :=
  match (vendor_year rows).find? (fun e => decide (e.1 = (v, y))) with
  | some e => e.2
  | none => 0

/-- The sorted distinct years of the whole filtered dataset (the pivot's
column set, `years` of `src/app.py` line 249). -/
def yearsOf (rows : List Row) : List ℤ :=
  sortAsc (rows.map (fun r => r.year)).dedup

/-- `years_nonzero` of `src/app.py` (line 255): the number of pivot columns
whose dense value for the vendor is strictly positive
(`(pivot > 0).sum(axis=1)`). -/
def years_nonzero (rows : List Row) (v : String) : ℕ :=
  (yearsOf rows).countP (fun y => decide (0 < pivotVal rows v y))

/-- Maximum of a list of integers (Python `max`). -/
def listMax : List ℤ → ℤ
  | [] => 0
  | [x] => x
  | x :: rest => max x (listMax rest)

/-- `latest_year = max(years)` (`src/app.py` line 259): the maximum year of
the whole filtered dataset, shared by all vendors. -/
def latest_year (rows : List Row) : ℤ := listMax (yearsOf rows)

/-- `latest_cost` (`src/app.py` line 261): the vendor's dense pivot value in
the global latest year. -/
def latest_cost (rows : List Row) (v : String) : ℚ :=
  pivotVal rows v (latest_year rows)

theorem find_vendor_year {rows : List Row} {v : String} {y : ℤ}
    {e : (String × ℤ) × ℚ}
    (h : (vendor_year rows).find? (fun e => decide (e.1 = (v, y))) = some e) :
    e = ((v, y), sumNet rows v y) := by
  have hmem := List.mem_of_find?_eq_some h
  have hp := List.find?_some h
  rw [decide_eq_true_eq] at hp
  rcases List.mem_map.mp hmem with ⟨k, _, hk⟩
  have hk1 : k = (v, y) := by rw [← hk] at hp; exact hp
  rw [← hk, hk1]

theorem pivotVal_eq_sumNet (rows : List Row) (v : String) (y : ℤ) :
    pivotVal rows v y = sumNet rows v y := by
  unfold pivotVal
  cases hf : (vendor_year rows).find? (fun e => decide (e.1 = (v, y))) with
  | some e => rw [find_vendor_year hf]
  | none =>
    rw [List.find?_eq_none] at hf
    have hnone : ∀ r ∈ rows, ¬(r.vendor_norm = v ∧ r.year = y) := by
      intro r hr hvy
      have hkey : (v, y) ∈ groupKeys rows := by
        unfold groupKeys
        rw [List.mem_dedup, List.mem_map]
        exact ⟨r, hr, by rw [hvy.1, hvy.2]⟩
      have hent : ((v, y), sumNet rows v y) ∈ vendor_year rows :=
        List.mem_map.mpr ⟨(v, y), hkey, rfl⟩
      exact absurd (by simp : decide ((((v, y), sumNet rows v y)).1 = (v, y))
        = true) (by simpa using hf _ hent)
    have hfil : rows.filter
        (fun r => decide (r.vendor_norm = v ∧ r.year = y)) = [] := by
      rw [List.filter_eq_nil]
      intro r hr
      simpa using hnone r hr
    unfold sumNet
    rw [hfil]
    rfl

/-- C6: for every vendor, `years_nonzero` is the number of years of the
whole filtered dataset whose dense pivot value (0.0 for absent cells) is
strictly positive, and it never exceeds the number of distinct years present
in the dataset. -/
theorem years_nonzero_spec (rows : List Row) (v : String) :
    years_nonzero rows v
      = ((yearsOf rows).filter
          (fun y => decide (0 < pivotVal rows v y))).length
    ∧ years_nonzero rows v ≤ ((rows.map (fun r => r.year)).dedup).length := by
  constructor
  · exact List.countP_eq_length_filter _ _
  · have h := List.countP_le_length
      (fun y => decide (0 < pivotVal rows v y)) (l := yearsOf rows)
    unfold yearsOf at h
    rw [sortAsc_length] at h
    exact h

theorem listMax_mem : ∀ l : List ℤ, l ≠ [] → listMax l ∈ l
  | [], h => absurd rfl h
  | [x], _ => by simp [listMax]
  | x :: y :: rest, _ => by
    have ih := listMax_mem (y :: rest) (by simp)
    unfold listMax
    rcases max_choice x (listMax (y :: rest)) with hm | hm <;> rw [hm]
    · exact List.mem_cons_self _ _
    · exact List.mem_cons_of_mem _ ih

theorem le_listMax : ∀ l : List ℤ, ∀ y ∈ l, y ≤ listMax l
  | [], _, h => absurd h (List.not_mem_nil _)
  | [x], y, h => by
    rw [List.mem_singleton] at h
    simp [listMax, h]
  | x :: a :: rest, y, h => by
    unfold listMax
    rcases List.mem_cons.mp h with hy | hy
    · rw [hy]; exact le_max_left _ _
    · exact le_trans (le_listMax (a :: rest) y hy) (le_max_right _ _)

/-- C9: for every vendor, `latest_cost` is that vendor's `sum_net` in the
global latest year — the maximum year present anywhere in the filtered
dataset, the same year for all vendors — and a vendor with no transaction in
that year has `latest_cost` 0 even if it was active in earlier years. -/
theorem latest_cost_spec (rows : List Row) (v : String) (h : rows ≠ []) :
    latest_cost rows v = sumNet rows v (latest_year rows)
    ∧ latest_year rows ∈ yearsOf rows
    ∧ (∀ y ∈ yearsOf rows, y ≤ latest_year rows)
    ∧ ((∀ r ∈ rows, r.vendor_norm = v → r.year ≠ latest_year rows) →
        latest_cost rows v = 0) := by
  have hy : yearsOf rows ≠ [] := by
    intro hnil
    have hlen : (yearsOf rows).length = 0 := by rw [hnil]; rfl
    unfold yearsOf at hlen
    rw [sortAsc_length, List.length_eq_zero] at hlen
    cases hr : rows with
    | nil => exact h hr
    | cons r rest =>
      have hmem : r.year ∈ (rows.map (fun r => r.year)).dedup := by
        rw [List.mem_dedup, List.mem_map]
        exact ⟨r, by rw [hr]; exact List.mem_cons_self _ _, rfl⟩
      rw [hlen] at hmem
      exact List.not_mem_nil _ hmem
  refine ⟨pivotVal_eq_sumNet rows v _, listMax_mem _ hy, le_listMax _, ?_⟩
  intro hnone
  rw [latest_cost, pivotVal_eq_sumNet]
  unfold sumNet
  have hfil : rows.filter
      (fun r => decide (r.vendor_norm = v ∧ r.year = latest_year rows))
      = [] := by
    rw [List.filter_eq_nil]
    intro r hr
    simp only [decide_eq_true_eq, not_and]
    exact hnone r hr
  rw [hfil]
  rfl

/-- Witness for `latest_cost_spec`: with rows ("a", 2023, 5) and
("b", 2024, 7), the global latest year is 2024 and vendor "a", active only
in 2023, has `latest_cost` 0. -/
theorem latest_cost_spec_witness :
    latest_cost [⟨"a", 2023, 5⟩, ⟨"b", 2024, 7⟩] "a" = 0 :=
  (latest_cost_spec [⟨"a", 2023, 5⟩, ⟨"b", 2024, 7⟩] "a"
    (by simp)).2.2.2 (by decide)

/-- The savings-rate table `SAVING_RATES` of `src/app.py` (lines 26-34). -/
def SAVING_RATES (category : String) : Option ℚ :=
  if category = "Leasing/Fahrzeug" then some (5/100)
  else if category = "Marketing/Werbung" then some (15/100)
  else if category = "Energie" then some (10/100)
  else if category = "Software/IT" then some (20/100)
  else if category = "Gebühren/Pflicht" then some 0
  else if category = "Beratung/Dienstleistung" then some (5/100)
  else if category = "Sonstiges" then some (10/100)
  else none

/-- `savings["rate"]` (`src/app.py` line 316): the category's configured
rate, with the `fillna` default 0.10. -/
def rateFor (category : String) : ℚ := (SAVING_RATES category).getD (10/100)

/-- Round half to even to an integer (Python's `round` on the exact
value). -/
def roundHalfEven (q : ℚ) : ℤ :=
  if q - (⌊q⌋ : ℚ) < 1/2 then ⌊q⌋
  else if 1/2 < q - (⌊q⌋ : ℚ) then ⌊q⌋ + 1
  else if ⌊q⌋ % 2 = 0 then ⌊q⌋ else ⌊q⌋ + 1

/-- Python `round(x, 2)`: round to 2 decimal places. -/
def round2 (q : ℚ) : ℚ := (roundHalfEven (q * 100) : ℚ) / 100

/-- One latest-year savings row: the vendor's `sum_net` in the latest year
and its dominant category. -/
structure SavingsInput where
  sum_net : ℚ
  category : String

/-- `potential_eur` per vendor (`src/app.py` line 317):
`(sum_net * rate).round(2)`. -/
def potentialEur (s : SavingsInput) : ℚ :=
  round2 (s.sum_net * rateFor s.category)

/-- `relevant_cost` (`src/app.py` line 320). -/
def relevant_cost (l : List SavingsInput) : ℚ :=
  (l.map (fun s => s.sum_net)).sum

/-- `potential_total` (`src/app.py` line 321). -/
def potential_total (l : List SavingsInput) : ℚ :=
  (l.map potentialEur).sum

/-- `potential_pct` (`src/app.py` line 322) with its division-by-zero
guard. -/
def potential_pct (l : List SavingsInput) : ℚ :=
  if 0 < relevant_cost l then potential_total l / relevant_cost l * 100
  else 0

theorem rateFor_nonneg (c : String) : 0 ≤ rateFor c := by
  unfold rateFor SAVING_RATES
  split_ifs <;> norm_num

theorem rateFor_le (c : String) : rateFor c ≤ 1/5 := by
  unfold rateFor SAVING_RATES
  split_ifs <;> norm_num

theorem roundHalfEven_le (q : ℚ) : (roundHalfEven q : ℚ) ≤ q + 1/2 := by
  unfold roundHalfEven
  have hfl : (⌊q⌋ : ℚ) ≤ q := Int.floor_le q
  split_ifs with h1 h2 h3 <;> push_cast <;> linarith

theorem roundHalfEven_nonneg {q : ℚ} (h : 0 ≤ q) :
    (0 : ℤ) ≤ roundHalfEven q := by
  have hfl : (0 : ℤ) ≤ ⌊q⌋ := Int.floor_nonneg.mpr h
  unfold roundHalfEven
  split_ifs <;> omega

theorem round2_le (q : ℚ) : round2 q ≤ q + 1/200 := by
  unfold round2
  have h := roundHalfEven_le (q * 100)
  linarith

theorem round2_nonneg {q : ℚ} (h : 0 ≤ q) : 0 ≤ round2 q := by
  unfold round2
  have h2 : (0 : ℤ) ≤ roundHalfEven (q * 100) :=
    roundHalfEven_nonneg (by linarith)
  have h3 : (0 : ℚ) ≤ (roundHalfEven (q * 100) : ℚ) := by exact_mod_cast h2
  linarith

theorem potentialEur_bounds (s : SavingsInput) (h : 0 < s.sum_net) :
    0 ≤ potentialEur s ∧ potentialEur s ≤ s.sum_net / 5 + 1/200 := by
  have hr0 := rateFor_nonneg s.category
  have hr1 := rateFor_le s.category
  constructor
  · exact round2_nonneg (mul_nonneg (le_of_lt h) hr0)
  · have h1 := round2_le (s.sum_net * rateFor s.category)
    have h2 : s.sum_net * rateFor s.category ≤ s.sum_net * (1/5) :=
      mul_le_mul_of_nonneg_left hr1 (le_of_lt h)
    unfold potentialEur
    linarith

theorem potential_total_bounds :
    ∀ l : List SavingsInput, (∀ s ∈ l, 0 < s.sum_net) →
      0 ≤ potential_total l
      ∧ potential_total l ≤ relevant_cost l / 5 + (l.length : ℚ) / 200
  | [], _ => by simp [potential_total, relevant_cost]
  | s :: rest, hpos => by
    have hs := potentialEur_bounds s (hpos s (List.mem_cons_self _ _))
    have ih := potential_total_bounds rest
      (fun x hx => hpos x (List.mem_cons_of_mem _ hx))
    have e1 : potential_total (s :: rest)
        = potentialEur s + potential_total rest := by
      simp [potential_total]
    have e2 : relevant_cost (s :: rest) = s.sum_net + relevant_cost rest := by
      simp [relevant_cost]
    have e3 : ((s :: rest).length : ℚ) = (rest.length : ℚ) + 1 := by
      push_cast [List.length_cons]
      ring
    rw [e1, e2, e3]
    constructor
    · linarith [hs.1, ih.1]
    · linarith [hs.2, ih.2]

/-- C4 counterexample: a single latest-year vendor with sum_net 0.03 in
category "Software/IT" (rate 0.20): rounding the per-vendor potential
0.006 to 2 decimals yields 0.01, so potential_pct = 100/3 ≈ 33.3 — outside
[0, rate_max·100] = [0, 20], refuting the claimed upper bound. -/
theorem potential_pct_counterexample :
    potential_pct [⟨3/100, "Software/IT"⟩] = 100/3
    ∧ ¬(potential_pct [⟨3/100, "Software/IT"⟩] ≤ 20) := by
  have hrate : rateFor "Software/IT" = 1/5 := by
    unfold rateFor SAVING_RATES
    rw [if_neg (by decide), if_neg (by decide), if_neg (by decide),
      if_pos rfl, Option.getD_some]
    norm_num
  have harg : (3/100 : ℚ) * rateFor "Software/IT" * 100 = 3/5 := by
    rw [hrate]; norm_num
  have hfl : ⌊(3/5 : ℚ)⌋ = 0 := by
    rw [Int.floor_eq_zero_iff]
    constructor <;> norm_num
  have hrhe : roundHalfEven (3/5 : ℚ) = 1 := by
    unfold roundHalfEven
    rw [hfl]
    norm_num
  have hpe : potentialEur ⟨3/100, "Software/IT"⟩ = 1/100 := by
    unfold potentialEur round2
    rw [harg, hrhe]
    norm_num
  have hval : potential_pct [⟨3/100, "Software/IT"⟩] = 100/3 := by
    unfold potential_pct relevant_cost potential_total
    simp only [List.map, List.sum_cons, List.sum_nil, hpe]
    norm_num
  refine ⟨hval, by rw [hval]; norm_num⟩

/-- C4 amended: potential_pct is exactly 0 when relevant_cost is 0, equals
potential_total / relevant_cost · 100 when relevant_cost is positive, and is
always a defined, nonnegative rational bounded by rate_max·100 = 20 plus a
rounding allowance of n/(2·relevant_cost) for n vendor rows (each per-vendor
potential is rounded to 2 decimals, which can add up to 0.005 per row). -/
theorem potential_pct_bounds (l : List SavingsInput)
    (hpos : ∀ s ∈ l, 0 < s.sum_net) :
    0 ≤ potential_pct l
    ∧ (relevant_cost l = 0 → potential_pct l = 0)
    ∧ (0 < relevant_cost l →
        potential_pct l = potential_total l / relevant_cost l * 100
        ∧ potential_pct l
            ≤ 20 + (l.length : ℚ) / (2 * relevant_cost l)) := by
  have hb := potential_total_bounds l hpos
  refine ⟨?_, ?_, ?_⟩
  · unfold potential_pct
    split_ifs with hC
    · have h1 := hb.1
      have h2 : 0 ≤ potential_total l / relevant_cost l :=
        div_nonneg h1 (le_of_lt hC)
      linarith
    · exact le_refl 0
  · intro hC
    unfold potential_pct
    rw [hC]
    norm_num
  · intro hC
    have hCne : relevant_cost l ≠ 0 := ne_of_gt hC
    constructor
    · unfold potential_pct
      rw [if_pos hC]
    · unfold potential_pct
      rw [if_pos hC]
      have h100 : potential_total l * 100
          ≤ 20 * relevant_cost l + (l.length : ℚ) / 2 := by
        linarith [hb.2]
      have hstep : potential_total l / relevant_cost l * 100
          = potential_total l * 100 / relevant_cost l := by ring
      rw [hstep]
      have hdiv := (div_le_div_right hC).mpr h100
      have heq : (20 * relevant_cost l + (l.length : ℚ) / 2) / relevant_cost l
          = 20 + (l.length : ℚ) / (2 * relevant_cost l) := by
        field_simp
        ring
      rw [heq] at hdiv
      exact hdiv

/-- Witness for `potential_pct_bounds`: one vendor with sum_net 1 in
category "Energie" (rate 0.10) gives potential_pct 10, which is
nonnegative and at most 20 + 1/2. -/
theorem potential_pct_bounds_witness :
    0 ≤ potential_pct [⟨1, "Energie"⟩]
    ∧ potential_pct [⟨1, "Energie"⟩]
        ≤ 20 + (1 : ℚ) / (2 * relevant_cost [⟨1, "Energie"⟩]) := by
  have h := potential_pct_bounds [⟨1, "Energie"⟩]
    (by intro s hs; rw [List.mem_singleton] at hs; rw [hs]; norm_num)
  have hC : (0 : ℚ) < relevant_cost [⟨1, "Energie"⟩] := by
    norm_num [relevant_cost]
  refine ⟨h.1, ?_⟩
  have h2 := (h.2.2 hC).2
  simpa using h2

/-- The internal column roles of `auto_map_columns`. -/
inductive Role
  | date
  | amount
  | vendor
  | account
  | text
deriving DecidableEq

/-- The synonym list of each role (`src/app.py` lines 154-167). -/
def roleSyns : Role → List String
  | .date => ["date", "datum", "data"]
  | .amount => ["amount", "importo", "betrag", "netto"]
  | .vendor => ["vendor", "fornitore", "lieferant", "empfänger", "empfaenger"]
  | .account => ["account", "konto", "conto"]
  | .text => ["text", "descrizione", "beschreibung", "verwendungszweck"]

/-- A column name matches a role when one of the role's synonyms is a
substring of the stripped, lowercased name (`lc = str(c).strip().lower()`).
-/
def matchesRole (r : Role) (c : String) : Bool :=
  (roleSyns r).any (fun s => strIn s ⟨(stripChars c.data).map lowerChar⟩)

/-- `auto_map_columns` of `src/app.py` (lines 145-169) as a role lookup:
iterate the columns in order and, for every role independently, overwrite
the mapping whenever the current column matches that role. -/
def auto_map_columns (cols : List String) : Role → Option String :=
  cols.foldl (fun m c r => if matchesRole r c then some c else m r)
    (fun _ => none)

theorem find?_append_cases {α : Type} (p : α → Bool) :
    ∀ l₁ l₂ : List α, (l₁ ++ l₂).find? p
      = match l₁.find? p with
        | some a => some a
        | none => l₂.find? p
  | [], l₂ => by simp
  | a :: l₁, l₂ => by
    by_cases h : p a <;>
      simp [List.find?, h, find?_append_cases p l₁ l₂]

theorem auto_map_aux (r : Role) :
    ∀ (cols : List String) (m : Role → Option String),
      List.foldl (fun m c r => if matchesRole r c then some c else m r)
          m cols r
        = match cols.reverse.find? (matchesRole r) with
          | some c => some c
          | none => m r
  | [], m => by simp
  | c :: rest, m => by
    rw [List.foldl_cons, auto_map_aux r rest, List.reverse_cons,
      find?_append_cases (matchesRole r) rest.reverse [c]]
    cases hf : rest.reverse.find? (matchesRole r) with
    | some c' => rfl
    | none =>
      by_cases h : matchesRole r c <;> simp [List.find?, h]

/-- C10: in column-role resolution each role ends up mapped to the last
column (in dataset column order) whose name matches the role's synonym
list, i.e. the first match of the reversed column list; and one column whose
name matches synonyms of several roles is assigned to all of them — e.g.
"data importo fornitore" beats the earlier "Datum" for the date role and
simultaneously takes the amount and vendor roles. -/
theorem auto_map_columns_spec :
    (∀ (cols : List String) (r : Role),
      auto_map_columns cols r = cols.reverse.find? (matchesRole r))
    ∧ auto_map_columns ["Datum", "data importo fornitore"] Role.date
        = some "data importo fornitore"
    ∧ auto_map_columns ["Datum", "data importo fornitore"] Role.amount
        = some "data importo fornitore"
    ∧ auto_map_columns ["Datum", "data importo fornitore"] Role.vendor
        = some "data importo fornitore" := by
  refine ⟨?_, by decide, by decide, by decide⟩
  intro cols r
  unfold auto_map_columns
  rw [auto_map_aux r cols]
  cases cols.reverse.find? (matchesRole r) <;> rfl

end KostenScanner
